import Mathlib

/-!
Verification of the offline mutation queue and identifier-reconciliation
engine of the aws-mobile-appsync-sdk-js repository.

The development shallowly embeds the TypeScript of
`src/unnamed/part_000` (the offline link: `replaceUsingMap`, `getIds`,
`mapIds`, the metadata reducers, `_discard`/`discard`, and
`OfflineLink.request`/`enqueueMutation`).  JavaScript values flowing
through those functions (variables, optimistic responses, server data)
are modelled by the inductive type `Val`; JS objects become association
lists of fields, JS arrays become lists, and the `string | null` leaves
become `vstr`/`vnull`.  The identifier map, whose JS representation is a
plain object with `string | null` values, becomes an association list
`List (String × Option String)`; a JS spread merge `{...a, ...b}` is
modelled by list append with a last-binding-wins lookup `jget`.
-/

namespace AppSync

/-- A JavaScript value as handled by the offline link utilities:
`null`/`undefined`, strings, objects (insertion-ordered field lists) and
arrays.  Non-string scalars play no role in the claims and are omitted. -/
inductive Val where
  | vnull : Val
  | vstr : String → Val
  | vobj : List (String × Val) → Val
  | varr : List Val → Val
deriving Repr

/-- JS truthiness for `Val`: `null`/`undefined` and `""` are falsy,
objects and arrays are truthy. -/
def vtruthy : Val → Bool
  | .vnull => false
  | .vstr s => s ≠ ""
  | .vobj _ => true
  | .varr _ => true

/-- The identifier map: temporary identifier → server identifier, or
`none` for the explicit `null` "not yet known" marker. -/
abbrev IdMap := List (String × Option String)

/-- Lookup in a JS-object-as-association-list: the LAST binding wins,
matching the semantics of object spread `{...state, ...entries}` merges
modelled as append. Returns `none` when the key is absent. -/
def jget (m : IdMap) (k : String) : Option (Option String) :=
  (m.reverse.find? (fun p => p.1 = k)).map Prod.snd

/-- The truthy lookup performed by `replaceUsingMap`:
`const newVal = map[obj]; if (newVal) ...` — an entry whose value is
`null` or the empty string is falsy and does not fire. -/
def lookupTruthy (m : IdMap) (k : String) : Option String :=
  match jget m k with
  | some (some v) => if v = "" then none else some v
  | _ => none

/-- One scalar substitution step of `replaceUsingMap`:
`const newVal = map[val]; if (newVal) { obj[key] = newVal }`. -/
def substField (m : IdMap) (s : String) : String :=
  match lookupTruthy m s with
  | some v => v
  | none => s

mutual

/-- `replaceUsingMap(obj, map)` from src/unnamed/part_000 lines 427-457.
`if (!obj || !map) return obj;` then the top-level truthy lookup
`map[obj]` (meaningful when `obj` is a string; for objects and arrays
the coerced key never hits the identifier map), then recursion over the
fields of an object / index keys of an array. -/
def replaceUsingMap (m : IdMap) : Val → Val
  | .vnull => .vnull
  | .vstr s => .vstr (if s = "" then s else substField m s)
  | .vobj fs => .vobj (replaceFields m fs)
  | .varr vs => .varr (replaceElemsField m vs)

/-- The per-field dispatch inside the `Object.keys(obj).forEach` loop:
arrays are mapped elementwise through `replaceUsingMap`, objects (and
`null`, for which `typeof null === 'object'`) recurse through
`replaceUsingMap`, remaining scalars get the truthy lookup. -/
def replaceField (m : IdMap) : Val → Val
  | .vnull => .vnull
  | .vstr s => .vstr (substField m s)
  | .vobj fs => .vobj (replaceFields m fs)
  | .varr ws => .varr (replaceElemsTop m ws)

/-- Field-list traversal of the `forEach` over `Object.keys`. -/
def replaceFields (m : IdMap) : List (String × Val) → List (String × Val)
  | [] => []
  | (k, v) :: rest => (k, replaceField m v) :: replaceFields m rest

/-- `val.map((v, i) => replaceUsingMap(v, map))` for an array-valued field. -/
def replaceElemsTop (m : IdMap) : List Val → List Val
  | [] => []
  | v :: rest => replaceUsingMap m v :: replaceElemsTop m rest

/-- A top-level array is iterated via its index keys, each element going
through the per-field dispatch. -/
def replaceElemsField (m : IdMap) : List Val → List Val
  | [] => []
  | v :: rest => replaceField m v :: replaceElemsField m rest

end

mutual

/-- All string leaves of a value, in traversal order. -/
def stringsIn : Val → List String
  | .vnull => []
  | .vstr s => [s]
  | .vobj fs => stringsInFields fs
  | .varr vs => stringsInElems vs

def stringsInFields : List (String × Val) → List String
  | [] => []
  | (_, v) :: rest => stringsIn v ++ stringsInFields rest

def stringsInElems : List Val → List String
  | [] => []
  | v :: rest => stringsIn v ++ stringsInElems rest

end

/-! ## Identifier extraction: `getIds` (src/unnamed/part_000 lines 459-487) -/

/-- JS property write `acc[path] = id` on an object used as a map: if the
key is present its binding is overwritten in place, otherwise a new
binding is appended in insertion order. -/
def aset {α : Type} (l : List (String × α)) (k : String) (v : α) : List (String × α) :=
  if l.any (fun p => p.1 == k) then l.map (fun p => if p.1 = k then (k, v) else p)
  else l ++ [(k, v)]

/-- Run a list of property writes left to right. -/
def applyW (ws : List (String × String)) (acc : List (String × String)) :
    List (String × String) :=
  ws.foldl (fun a p => aset a p.1 p.2) acc

def isHexDigit (c : Char) : Bool :=
  c.isDigit || ('a' ≤ c && c ≤ 'f') || ('A' ≤ c && c ≤ 'F')

/-- The id component the regex `/(.+:)?(.+)/` extracts from a cache key:
everything after the last colon that still leaves a nonempty remainder
(greedy first group, nonempty second group); the whole string when no
colon qualifies. -/
def idPart (s : String) : String :=
  match ((List.range (s.length - 1)).filter (fun j => s.data.getD j ' ' == ':')).getLast? with
  | some j => String.mk (s.data.drop (j + 1))
  | none => s

/-- Modelled from the spec: `isUuid` is imported from `../utils`, which
is not among the provided sources.  Per the spec (§4.2), the check holds
when the cache key's trailing component looks like a client-generated
temporary identifier in UUID format (8-4-4-4-12 hex digits). -/
def isUuid (s : String) : Bool :=
  let t := idPart s
  t.length == 36 && (List.range 36).all (fun i =>
    let c := t.data.getD i ' '
    if i == 8 || i == 13 || i == 18 || i == 23 then c == '-' else isHexDigit c)

/-- Path concatenation `` `${path}${path && '.'}${key}` ``. -/
def joinPath (path k : String) : String :=
  path ++ (if path = "" then "" else ".") ++ k

/-- Array element path `` `${path}.${key}[${i}]` `` (note the
unconditional leading dot, unlike `joinPath`). -/
def arrPath (path k : String) (i : Nat) : String :=
  path ++ "." ++ k ++ "[" ++ toString i ++ "]"

/-- The `dataId` block of `getIds`: `const dataId = dataIdFromObject(obj);
if (dataId) { const [, , id] = dataId.match(/(.+:)?(.+)/); if
(isUuid(dataId)) { acc[path] = id; } }`. -/
def recordId (d : Val → Option String) (x : Val) (path : String)
    (acc : List (String × String)) : List (String × String) :=
  match d x with
  | some dataId => if dataId ≠ "" ∧ isUuid dataId then aset acc path (idPart dataId) else acc
  | none => acc

mutual

/-- `getIds(dataIdFromObject, obj, path = '', acc = {})` from
src/unnamed/part_000 lines 459-487.  Falsy values return the
accumulator; objects and arrays (both `typeof === 'object'`) record
their cache id and are traversed; the trailing
`return getIds(dataIdFromObject, null, path, acc)` is the identity. -/
def getIds (d : Val → Option String) : Val → String → List (String × String) →
    List (String × String)
  | .vnull, _, acc => acc
  | .vstr _, _, acc => acc
  | .vobj fs, path, acc => getIdsFields d fs path (recordId d (.vobj fs) path acc)
  | .varr vs, path, acc => getIdsIdx d vs 0 path (recordId d (.varr vs) path acc)

/-- The `Object.keys(obj).forEach` loop over an object's fields. -/
def getIdsFields (d : Val → Option String) : List (String × Val) → String →
    List (String × String) → List (String × String)
  | [], _, acc => acc
  | (k, v) :: rest, path, acc => getIdsFields d rest path (getIdsEntry d k v path acc)

/-- The same loop when the traversed value is an array: its `Object.keys`
are the element indices. -/
def getIdsIdx (d : Val → Option String) : List Val → Nat → String →
    List (String × String) → List (String × String)
  | [], _, _, acc => acc
  | v :: rest, i, path, acc => getIdsIdx d rest (i + 1) path (getIdsEntry d (toString i) v path acc)

/-- Dispatch on one property value: array-valued properties recurse into
each element with an indexed path, object-valued (including `null`)
properties recurse with the joined path, scalars are skipped.  The
object case is `getIds d (.vobj fs) (joinPath path k) acc` with that
call's definition unfolded one step (see `getIdsEntry_object`). -/
def getIdsEntry (d : Val → Option String) (k : String) (v : Val) (path : String)
    (acc : List (String × String)) : List (String × String) :=
  match v with
  | .varr ws => getIdsArr d ws 0 path k acc
  | .vobj fs => getIdsFields d fs (joinPath path k) (recordId d (.vobj fs) (joinPath path k) acc)
  | .vnull => acc
  | .vstr _ => acc

/-- `val.forEach((v, i) => getIds(dataIdFromObject, v, path.key[i], acc))`. -/
def getIdsArr (d : Val → Option String) : List Val → Nat → String → String →
    List (String × String) → List (String × String)
  | [], _, _, _, acc => acc
  | v :: rest, i, path, k, acc =>
      getIdsArr d rest (i + 1) path k (getIds d v (arrPath path k i) acc)

end

/-- Mirror of `recordId` as a pure list of property writes. -/
def wrRec (d : Val → Option String) (x : Val) (path : String) : List (String × String) :=
  match d x with
  | some dataId => if dataId ≠ "" ∧ isUuid dataId then [(path, idPart dataId)] else []
  | none => []

mutual

/-- The sequence of property writes `getIds` performs on its
accumulator; the writes depend only on the traversed value, never on the
accumulator contents. -/
def wrVal (d : Val → Option String) : Val → String → List (String × String)
  | .vnull, _ => []
  | .vstr _, _ => []
  | .vobj fs, path => wrRec d (.vobj fs) path ++ wrFields d fs path
  | .varr vs, path => wrRec d (.varr vs) path ++ wrIdx d vs 0 path

def wrFields (d : Val → Option String) : List (String × Val) → String →
    List (String × String)
  | [], _ => []
  | (k, v) :: rest, path => wrEntry d k v path ++ wrFields d rest path

def wrIdx (d : Val → Option String) : List Val → Nat → String → List (String × String)
  | [], _, _ => []
  | v :: rest, i, path => wrEntry d (toString i) v path ++ wrIdx d rest (i + 1) path

def wrEntry (d : Val → Option String) (k : String) (v : Val) (path : String) :
    List (String × String) :=
  match v with
  | .varr ws => wrArr d ws 0 path k
  | .vobj fs => wrRec d (.vobj fs) (joinPath path k) ++ wrFields d fs (joinPath path k)
  | .vnull => []
  | .vstr _ => []

def wrArr (d : Val → Option String) : List Val → Nat → String → String →
    List (String × String)
  | [], _, _, _ => []
  | v :: rest, i, path, k => wrVal d v (arrPath path k i) ++ wrArr d rest (i + 1) path k

end

/-! ## `mapIds` and the metadata reducers (src/unnamed/part_000 lines 244-347, 489-496) -/

/-- `intersectingKeys(obj1, obj2)`: keys of the first map that also occur
in the second. -/
def intersectingKeys (o1 o2 : List (String × String)) : List String :=
  (o1.map Prod.fst).filter (fun k => (o2.map Prod.fst).contains k)

/-- First-binding lookup for the unique-keyed accumulators `getIds`
builds (`obj1[k]`). -/
def getS (l : List (String × String)) (k : String) : String :=
  ((l.find? (fun p => p.1 == k)).map Prod.snd).getD ""

/-- `mapIds(obj1, obj2)`: positional alignment of two path→id maps,
producing oldId → newId pairs. -/
def mapIds (o1 o2 : List (String × String)) : List (String × String) :=
  (intersectingKeys o1 o2).foldl (fun acc k => aset acc (getS o1 k) (getS o2 k)) []

/-- The actions the metadata reducer reacts to.  `saveSnapshot` carries
the extracted cache contents (`cache.extract(false)`, an external
collaborator call); `other` stands for any unrelated action type. -/
inductive MetaAction where
  | enqueue (optimisticResponse : Val)
  | commit
  | rollback
  | saveServerId (optimisticResponse : Val) (data : Val)
  | saveSnapshot (cacheContents : Val)
  | other

/-- The `snapshot` part of the metadata state. -/
structure Snapshot where
  enqueuedMutations : Int
  cache : Val
deriving Repr

/-- The state under `METADATA_KEY`: `{ snapshot: { enqueuedMutations,
cache }, idsMap }`.  (The `PERSIST_REHYDRATE` branch, which swaps in an
externally persisted state wholesale, is outside the reducer logic the
claims concern.) -/
structure MetaState where
  snapshot : Snapshot
  idsMap : IdMap
deriving Repr

/-- `enqueuedMutationsReducer`. -/
def enqueuedMutationsReducer (n : Int) : MetaAction → Int
  | .enqueue _ => n + 1
  | .commit => n - 1
  | .rollback => n - 1
  | _ => n

/-- `cacheSnapshotReducer`. -/
def cacheSnapshotReducer (c : Val) : MetaAction → Val
  | .saveSnapshot contents => contents
  | _ => c

/-- The `ENQUEUE` branch of `idsMapReducer`: every id found in the
optimistic response is bound to `null` (`Object.values(ids).reduce((acc,
id) => (acc[id] = null, acc), {})`). -/
def enqueueEntries (d : Val → Option String) (opt : Val) : IdMap :=
  ((getIds d opt "" []).map Prod.snd).foldl (fun acc id => aset acc id none) []

/-- `idsMapReducer(state, action, dataIdFromObject)` with the
`remainingMutations` the surrounding `metadataReducer` injects.  Object
spread merges `{...state, ...entries}` are modelled as append with
last-binding-wins lookup (`jget`). -/
def idsMapReducer (d : Val → Option String) (m : IdMap) (a : MetaAction)
    (remainingMutations : Int) : IdMap :=
  match a with
  | .enqueue opt => m ++ enqueueEntries d opt
  | .commit => if remainingMutations = 0 then [] else m
  | .saveServerId opt data =>
      m ++ (mapIds (getIds d opt "" []) (getIds d data "" [])).map (fun p => (p.1, some p.2))
  | _ => m

/-- `snapshotReducer`. -/
def snapshotReducer (s : Snapshot) (a : MetaAction) : Snapshot :=
  { enqueuedMutations := enqueuedMutationsReducer s.enqueuedMutations a
    cache := cacheSnapshotReducer s.cache a }

/-- `metadataReducer(dataIdFromObject)`: reduce the snapshot first, then
the ids map with `remainingMutations` set to the new
`enqueuedMutations`. -/
def metadataReducer (d : Val → Option String) (s : MetaState) (a : MetaAction) : MetaState :=
  let snap := snapshotReducer s.snapshot a
  { snapshot := snap, idsMap := idsMapReducer d s.idsMap a snap.enqueuedMutations }

/-- A sequence of dispatched actions, folded through the reducer. -/
def runActions (d : Val → Option String) (s : MetaState) (acts : List MetaAction) : MetaState :=
  acts.foldl (metadataReducer d) s

/-! ## The conflict/discard policy (src/unnamed/part_000 lines 349-423) -/

/-- One backend GraphQL error: its `errorType` (absent for plain errors)
and the conflicting `data` attached to conditional-check failures. -/
structure GqlErr where
  errorType : Option String
  data : Val

/-- The error inspected by `discard`: its `graphQLErrors` list (default
`[]`), the `graphQLErrors` nested under `networkError` (default `[]`),
and the `permanent` flag. -/
structure AppError where
  graphQLErrors : List GqlErr
  networkErrorGraphQLErrors : List GqlErr
  permanent : Bool

/-- The mutation document as the policy sees it through the external
`graphql` helpers: `getOperationName` and
`getOperationDefinition(...).operation`. -/
structure MutationDoc where
  name : String
  operationType : String

/-- The queued effect fields `discard` destructures:
`action.meta.offline.effect.{mutation, variables}`. -/
structure Effect where
  mutation : MutationDoc
  vars : Val

/-- The offline action handed to the discard function. -/
structure OfflineAction where
  effect : Effect

/-- The `ConflictResolutionInfo` record passed to the user resolver. -/
structure ConflictInfo where
  mutation : MutationDoc
  mutationName : String
  operationType : String
  vars : Val
  data : Val
  retries : Nat

/-- What a user conflict resolver can return (`'DISCARD' | boolean`, or
in practice a replacement variables object, or any falsy value). -/
inductive ResolverReturn where
  | rdiscard
  | robj (v : Val)
  | rfalsy

/-- A resolver invocation either returns or throws; fallible user code
is modelled with an explicit outcome. -/
inductive ResolverOutcome where
  | rthrow
  | rret (r : ResolverReturn)

def isConditionalCheck (e : GqlErr) : Bool :=
  e.errorType == some "DynamoDB:ConditionalCheckFailedException"

def isAppSyncClientError (e : GqlErr) : Bool :=
  match e.errorType with
  | some t => t.startsWith "AWSAppSyncClient:"
  | none => false

/-- The record built for the resolver inside `_discard`. -/
def conflictInfo (a : OfflineAction) (cc : GqlErr) (retries : Nat) : ConflictInfo :=
  { mutation := a.effect.mutation
    mutationName := a.effect.mutation.name
    operationType := a.effect.mutation.operationType
    vars := a.effect.vars
    data := cc.data
    retries := retries }

/-- `action.meta.offline.effect.variables = conflictResolutionResult`. -/
def setVars (a : OfflineAction) (v : Val) : OfflineAction :=
  { a with effect := { a.effect with vars := v } }

/-- `_discard(fn, error, action, retries)` from src/unnamed/part_000
lines 370-423.  The JS mutates `action` in place and returns a boolean;
the embedding passes the action state explicitly and returns the pair
(decision, action). -/
def underscoreDiscard (fn : ConflictInfo → ResolverOutcome) (error : AppError)
    (action : OfflineAction) (retries : Nat) : Bool × OfflineAction :=
  match error.graphQLErrors.find? isConditionalCheck with
  | some cc =>
      (match fn (conflictInfo action cc retries) with
       | .rthrow => (true, action)
       | .rret .rdiscard => (true, action)
       | .rret (.robj v) => (false, setVars action v)
       | .rret .rfalsy => (error.permanent || decide (retries > 10), action))
  | none =>
      if !error.graphQLErrors.isEmpty then (true, action)
      else if (error.networkErrorGraphQLErrors.find? isAppSyncClientError).isSome then
        (true, action)
      else (error.permanent || decide (retries > 10), action)

/-- The default conflict resolver `() => 'DISCARD'` installed when the
caller supplies none. -/
def defaultResolver : ConflictInfo → ResolverOutcome := fun _ => .rret .rdiscard

/-- `discard(fn)(error, action, retries)`: the exported wrapper forwards
to `_discard` (its `if (discardResult) { console.log(action); }` block
has no effect on the result). -/
def discardDecision (fn : Option (ConflictInfo → ResolverOutcome)) (error : AppError)
    (action : OfflineAction) (retries : Nat) : Bool × OfflineAction :=
  underscoreDiscard (fn.getD defaultResolver) error action retries

/-! ## The mutation intercept (src/unnamed/part_000 lines 44-92, 125-174) -/

/-- The caller-supplied optimistic response: a value or a function of
the variables. -/
inductive OptimisticSpec where
  | value (v : Val)
  | func (f : Val → Val)

/-- The `AASContext` of an operation. -/
structure AASContext where
  doIt : Bool
  optimisticResponse : Option OptimisticSpec

/-- The parts of an Apollo operation the offline link inspects: the
operation type of its query document, the result key names of the
mutation's top-level selection set, its variables, and its context. -/
structure Operation where
  opType : String
  selections : List String
  vars : Val
  ctx : AASContext

/-- `typeof origOptimistic === 'function' ? origOptimistic(variables) :
origOptimistic` (with an absent response evaluating to `undefined`). -/
def evalOptimistic (op : Operation) : Val :=
  match op.ctx.optimisticResponse with
  | some (.func f) => f op.vars
  | some (.value v) => v
  | none => .vnull

/-- The value `enqueueMutation` returns to the caller: the evaluated
optimistic response when truthy, otherwise a null for every top-level
result key of the mutation's selection set. -/
def enqueueMutationResult (op : Operation) : Val :=
  let o := evalOptimistic op
  if vtruthy o then o
  else .vobj (op.selections.map (fun k => (k, Val.vnull)))

/-- How `OfflineLink.request` disposes of an operation. `offlineQuery`:
answered from the normalized cache (external read). `queued`: enqueued
with commit/rollback continuations, `forward` never invoked; the payload
is the data emitted to the observer (`some` while offline, `none` when
online where the observer waits for the replay). `forwarded`: handed to
the network transport. -/
inductive ReqOutcome where
  | offlineQuery
  | queued (emitted : Option Val)
  | forwarded

/-- The dispatch structure of `OfflineLink.request` (src/unnamed/part_000
lines 44-92). -/
def requestOutcome (online : Bool) (op : Operation) : ReqOutcome :=
  let isMutation := op.opType == "mutation"
  let isQuery := op.opType == "query"
  if !online && isQuery then .offlineQuery
  else if isMutation && !op.ctx.doIt then
    .queued (if !online then some (enqueueMutationResult op) else none)
  else .forwarded

/-! ## Reference-heap model of `replaceUsingMap` for cyclic inputs

JavaScript objects are heap references and may be cyclic; the inductive
`Val` cannot represent that.  To settle the termination claim the
recursion of `replaceUsingMap` is re-read over an explicit heap of
objects, with a fuel parameter standing for the call stack: `none` means
the given stack depth was exhausted.  The fragment modelled (objects
whose properties are references, strings or null) covers the structure
of the failing input. -/

/-- A heap value: `null`, a string scalar, or a reference to a heap
object. -/
inductive HVal where
  | hnull
  | hstr (s : String)
  | href (a : Nat)

/-- A heap object and the heap: address-indexed field lists. -/
structure HeapObj where
  fields : List (String × HVal)

abbrev Heap := List HeapObj

mutual

/-- `replaceUsingMap` on a heap value with explicit fuel.  Each nested
`replaceUsingMap(val, map)` call consumes one unit of fuel; `none`
signals that no finite stack suffices along this path. -/
def replaceFuel (m : IdMap) (h : Heap) : Nat → HVal → Option HVal
  | 0, _ => none
  | _ + 1, .hnull => some .hnull
  | _ + 1, .hstr s => some (.hstr (if s = "" then s else substField m s))
  | f + 1, .href a =>
      match h[a]? with
      | none => some (.href a)
      | some o => (goFields m h f o.fields).map (fun _ => .href a)
termination_by f _ => (f, 0)

/-- The `Object.keys(obj).forEach` loop: object-valued (reference)
properties recurse into `replaceFuel`, scalar properties are rewritten
in place (a side effect irrelevant to termination). -/
def goFields (m : IdMap) (h : Heap) : Nat → List (String × HVal) → Option Unit
  | _, [] => some ()
  | f, (_, v) :: rest =>
      match v with
      | .href a => (replaceFuel m h f (.href a)).bind (fun _ => goFields m h f rest)
      | _ => goFields m h f rest
termination_by f l => (f, l.length + 1)

end

/-- The canonical cyclic input: `const x = {}; x.self = x;`. -/
def cyclicHeap : Heap := [⟨[("self", HVal.href 0)]⟩]

/-! ## Lemmas about `replaceUsingMap` -/

/-- A truthy lookup only succeeds on an actual binding of the map. -/
theorem lookupTruthy_mem (m : IdMap) (k v : String) (h : lookupTruthy m k = some v) :
    (k, some v) ∈ m := by
  unfold lookupTruthy at h
  cases hj : jget m k with
  | none => rw [hj] at h; simp at h
  | some o =>
    rw [hj] at h
    cases o with
    | none => simp at h
    | some w =>
      have hw : w = v := by
        by_cases hvw : w = ""
        · simp [hvw] at h
        · simpa [hvw] using h
      subst hw
      unfold jget at hj
      cases hf : m.reverse.find? (fun p => p.1 = k) with
      | none => rw [hf] at hj; simp at hj
      | some p =>
        rw [hf] at hj
        simp at hj
        have hp1 : p.1 = k := by
          have := List.find?_some hf
          simpa using this
        have hpm : p ∈ m := by
          have := List.mem_of_find?_eq_some hf
          simpa using this
        have : p = (k, some w) := by
          cases p with
          | mk a b => simp at hp1 hj; simp [hp1, hj]
        rwa [this] at hpm

mutual

/-- No string leaf of `replaceUsingMap`'s output has a truthy entry in
the map, provided the map is acyclic (no truthy value is itself a truthy
key) and the empty string has no truthy entry. -/
theorem replace_top_clean (m : IdMap)
    (hv : ∀ k v, lookupTruthy m k = some v → lookupTruthy m v = none)
    (hne : lookupTruthy m "" = none) :
    ∀ (x : Val) (s : String), s ∈ stringsIn (replaceUsingMap m x) → lookupTruthy m s = none
  | .vnull, s, h => by simp [replaceUsingMap, stringsIn] at h
  | .vstr t, s, h => by
      simp only [replaceUsingMap, stringsIn, List.mem_singleton] at h
      subst h
      by_cases ht : t = ""
      · simpa [ht] using hne
      · simp only [ht, if_false]
        unfold substField
        cases hl : lookupTruthy m t with
        | some v => exact hv t v hl
        | none => exact hl
  | .vobj fs, s, h => by
      simp only [replaceUsingMap, stringsIn] at h
      exact replace_fields_clean m hv hne fs s h
  | .varr vs, s, h => by
      simp only [replaceUsingMap, stringsIn] at h
      exact replace_elemsField_clean m hv hne vs s h

theorem replace_field_clean (m : IdMap)
    (hv : ∀ k v, lookupTruthy m k = some v → lookupTruthy m v = none)
    (hne : lookupTruthy m "" = none) :
    ∀ (x : Val) (s : String), s ∈ stringsIn (replaceField m x) → lookupTruthy m s = none
  | .vnull, s, h => by simp [replaceField, stringsIn] at h
  | .vstr t, s, h => by
      simp only [replaceField, stringsIn, List.mem_singleton] at h
      subst h
      unfold substField
      cases hl : lookupTruthy m t with
      | some v => exact hv t v hl
      | none => exact hl
  | .vobj fs, s, h => by
      simp only [replaceField, stringsIn] at h
      exact replace_fields_clean m hv hne fs s h
  | .varr ws, s, h => by
      simp only [replaceField, stringsIn] at h
      exact replace_elemsTop_clean m hv hne ws s h

theorem replace_fields_clean (m : IdMap)
    (hv : ∀ k v, lookupTruthy m k = some v → lookupTruthy m v = none)
    (hne : lookupTruthy m "" = none) :
    ∀ (l : List (String × Val)) (s : String),
      s ∈ stringsInFields (replaceFields m l) → lookupTruthy m s = none
  | [], s, h => by simp [replaceFields, stringsInFields] at h
  | (k, v) :: rest, s, h => by
      simp only [replaceFields, stringsInFields, List.mem_append] at h
      cases h with
      | inl h => exact replace_field_clean m hv hne v s h
      | inr h => exact replace_fields_clean m hv hne rest s h

theorem replace_elemsTop_clean (m : IdMap)
    (hv : ∀ k v, lookupTruthy m k = some v → lookupTruthy m v = none)
    (hne : lookupTruthy m "" = none) :
    ∀ (l : List Val) (s : String),
      s ∈ stringsInElems (replaceElemsTop m l) → lookupTruthy m s = none
  | [], s, h => by simp [replaceElemsTop, stringsInElems] at h
  | v :: rest, s, h => by
      simp only [replaceElemsTop, stringsInElems, List.mem_append] at h
      cases h with
      | inl h => exact replace_top_clean m hv hne v s h
      | inr h => exact replace_elemsTop_clean m hv hne rest s h

theorem replace_elemsField_clean (m : IdMap)
    (hv : ∀ k v, lookupTruthy m k = some v → lookupTruthy m v = none)
    (hne : lookupTruthy m "" = none) :
    ∀ (l : List Val) (s : String),
      s ∈ stringsInElems (replaceElemsField m l) → lookupTruthy m s = none
  | [], s, h => by simp [replaceElemsField, stringsInElems] at h
  | v :: rest, s, h => by
      simp only [replaceElemsField, stringsInElems, List.mem_append] at h
      cases h with
      | inl h => exact replace_field_clean m hv hne v s h
      | inr h => exact replace_elemsField_clean m hv hne rest s h

end

/-- An explicit `null` binding is a falsy lookup. -/
theorem lookupTruthy_of_jget_null (m : IdMap) (s : String) (h : jget m s = some none) :
    lookupTruthy m s = none := by
  unfold lookupTruthy
  rw [h]

/-- A string with a falsy map entry substitutes to itself. -/
theorem substField_self (m : IdMap) (s : String) (h : lookupTruthy m s = none) :
    substField m s = s := by
  unfold substField
  rw [h]

mutual

/-- Occurrences of a string with a falsy map entry are preserved by
`replaceUsingMap`: each such leaf is rewritten to itself. -/
theorem replace_top_keeps (m : IdMap) (s : String) (hs : lookupTruthy m s = none) :
    ∀ (x : Val),
      List.count s (stringsIn x) ≤ List.count s (stringsIn (replaceUsingMap m x))
  | .vnull => by simp [replaceUsingMap, stringsIn]
  | .vstr t => by
      by_cases ht : t = ""
      · simp [replaceUsingMap, stringsIn, ht]
      · by_cases hts : t = s
        · subst hts
          simp [replaceUsingMap, stringsIn, ht, substField_self m t hs]
        · simp [replaceUsingMap, stringsIn, ht, List.count_singleton', hts]
  | .vobj fs => by
      simp only [replaceUsingMap, stringsIn]
      exact replace_fields_keeps m s hs fs
  | .varr vs => by
      simp only [replaceUsingMap, stringsIn]
      exact replace_elemsField_keeps m s hs vs

theorem replace_field_keeps (m : IdMap) (s : String) (hs : lookupTruthy m s = none) :
    ∀ (x : Val),
      List.count s (stringsIn x) ≤ List.count s (stringsIn (replaceField m x))
  | .vnull => by simp [replaceField, stringsIn]
  | .vstr t => by
      by_cases hts : t = s
      · subst hts
        simp [replaceField, stringsIn, substField_self m t hs]
      · simp [replaceField, stringsIn, List.count_singleton', hts]
  | .vobj fs => by
      simp only [replaceField, stringsIn]
      exact replace_fields_keeps m s hs fs
  | .varr ws => by
      simp only [replaceField, stringsIn]
      exact replace_elemsTop_keeps m s hs ws

theorem replace_fields_keeps (m : IdMap) (s : String) (hs : lookupTruthy m s = none) :
    ∀ (l : List (String × Val)),
      List.count s (stringsInFields l) ≤ List.count s (stringsInFields (replaceFields m l))
  | [] => by simp [replaceFields]
  | (k, v) :: rest => by
      simp only [replaceFields, stringsInFields, List.count_append]
      exact Nat.add_le_add (replace_field_keeps m s hs v) (replace_fields_keeps m s hs rest)

theorem replace_elemsTop_keeps (m : IdMap) (s : String) (hs : lookupTruthy m s = none) :
    ∀ (l : List Val),
      List.count s (stringsInElems l) ≤ List.count s (stringsInElems (replaceElemsTop m l))
  | [] => by simp [replaceElemsTop]
  | v :: rest => by
      simp only [replaceElemsTop, stringsInElems, List.count_append]
      exact Nat.add_le_add (replace_top_keeps m s hs v) (replace_elemsTop_keeps m s hs rest)

theorem replace_elemsField_keeps (m : IdMap) (s : String) (hs : lookupTruthy m s = none) :
    ∀ (l : List Val),
      List.count s (stringsInElems l) ≤ List.count s (stringsInElems (replaceElemsField m l))
  | [] => by simp [replaceElemsField]
  | v :: rest => by
      simp only [replaceElemsField, stringsInElems, List.count_append]
      exact Nat.add_le_add (replace_field_keeps m s hs v) (replace_elemsField_keeps m s hs rest)

end

/-! ## Replay lemmas for property-write sequences

`getIds` only ever touches its accumulator through property writes
`acc[path] = id` whose keys and values are determined by the traversed
value alone.  The lemmas below show that running any fixed write
sequence twice equals running it once, which yields the idempotence of
`getIds`. -/

/-- The keys of an association list. -/
def keysOf {α : Type} (l : List (String × α)) : List String := l.map Prod.fst

/-- The last value a write sequence assigns to a key. -/
def lastW (ws : List (String × String)) (k : String) : Option String :=
  ws.foldl (fun r p => if p.1 = k then some p.2 else r) none

theorem foldl_lastW (k : String) :
    ∀ (t : List (String × String)) (init : Option String),
      t.foldl (fun r p => if p.1 = k then some p.2 else r) init =
        match lastW t k with
        | some w => some w
        | none => init
  | [], init => by simp [lastW]
  | q :: t, init => by
      have h1 := foldl_lastW k t (if q.1 = k then some q.2 else init)
      have h2 := foldl_lastW k t (if q.1 = k then some q.2 else none)
      simp only [lastW, List.foldl_cons] at *
      rw [h1, h2]
      cases hl : (lastW t k) with
      | some w => simp [lastW] at hl; simp [hl]
      | none =>
          simp [lastW] at hl
          simp only [hl]
          by_cases hq : q.1 = k
          · simp [hq]
          · simp [hq]

theorem lastW_cons (q : String × String) (t : List (String × String)) (k : String) :
    lastW (q :: t) k =
      match lastW t k with
      | some w => some w
      | none => if q.1 = k then some q.2 else none := by
  simp only [lastW, List.foldl_cons]
  exact foldl_lastW k t _

theorem lastW_append_single (t : List (String × String)) (q : String × String) (k : String) :
    lastW (t ++ [q]) k = if q.1 = k then some q.2 else lastW t k := by
  simp [lastW, List.foldl_append]

/-- Key of a present binding after a write. -/
theorem mem_keys_aset_self {α : Type} (l : List (String × α)) (k : String) (v : α) :
    k ∈ keysOf (aset l k v) := by
  unfold aset
  by_cases hp : l.any (fun p => p.1 == k)
  · simp only [hp, if_true]
    rcases List.any_eq_true.mp hp with ⟨p, hpl, hpk⟩
    have hpk' : p.1 = k := by simpa using hpk
    unfold keysOf
    exact List.mem_map.mpr ⟨(k, v), List.mem_map.mpr ⟨p, hpl, by simp [hpk']⟩, rfl⟩
  · simp only [hp, if_false]
    unfold keysOf
    simp

theorem keys_aset_superset {α : Type} (l : List (String × α)) (k a : String) (v : α)
    (ha : a ∈ keysOf l) : a ∈ keysOf (aset l k v) := by
  unfold aset
  by_cases hp : l.any (fun p => p.1 == k)
  · simp only [hp, if_true]
    unfold keysOf at *
    rcases List.mem_map.mp ha with ⟨p, hpl, hpa⟩
    refine List.mem_map.mpr ⟨if p.1 = k then (k, v) else p, List.mem_map.mpr ⟨p, hpl, rfl⟩, ?_⟩
    by_cases hpk : p.1 = k
    · rw [if_pos hpk]; rw [← hpk]; exact hpa
    · rw [if_neg hpk]; exact hpa
  · simp only [hp, if_false]
    unfold keysOf at *
    simp [ha]

theorem keys_applyW_superset (ws : List (String × String)) :
    ∀ (X : List (String × String)) (a : String), a ∈ keysOf X → a ∈ keysOf (applyW ws X) := by
  induction ws with
  | nil => intro X a ha; simpa [applyW] using ha
  | cons q t ih =>
      intro X a ha
      have : applyW (q :: t) X = applyW t (aset X q.1 q.2) := by simp [applyW]
      rw [this]
      exact ih _ a (keys_aset_superset X q.1 a q.2 ha)

theorem mem_keys_applyW (ws : List (String × String)) :
    ∀ (X : List (String × String)) (p : String × String), p ∈ ws →
      p.1 ∈ keysOf (applyW ws X) := by
  induction ws with
  | nil => intro X p hp; cases hp
  | cons q t ih =>
      intro X p hp
      have hw : applyW (q :: t) X = applyW t (aset X q.1 q.2) := by simp [applyW]
      rw [hw]
      rcases List.mem_cons.mp hp with hq | ht
      · subst hq
        exact keys_applyW_superset t _ p.1 (mem_keys_aset_self X p.1 p.2)
      · exact ih _ p ht

theorem aset_of_mem_keys {α : Type} (l : List (String × α)) (k : String) (v : α)
    (hk : k ∈ keysOf l) :
    aset l k v = l.map (fun p => if p.1 = k then (k, v) else p) := by
  unfold aset
  have : l.any (fun p => p.1 == k) = true := by
    unfold keysOf at hk
    rcases List.mem_map.mp hk with ⟨p, hpl, hpa⟩
    exact List.any_eq_true.mpr ⟨p, hpl, by simp [hpa]⟩
  simp [this]

theorem keysOf_map_upd {α : Type} (l : List (String × α)) (f : String × α → String × α)
    (hf : ∀ p, (f p).1 = p.1) : keysOf (l.map f) = keysOf l := by
  unfold keysOf
  rw [List.map_map]
  exact List.map_congr_left (fun p _ => hf p)

/-- Entries keyed by the written key carry the written value. -/
theorem aset_key_val {α : Type} (l : List (String × α)) (k : String) (v : α)
    (e : String × α) (he : e ∈ aset l k v) (hek : e.1 = k) : e.2 = v := by
  unfold aset at he
  by_cases hp : l.any (fun p => p.1 == k)
  · simp only [hp, if_true] at he
    rcases List.mem_map.mp he with ⟨p, _, hpe⟩
    by_cases hpk : p.1 = k
    · simp [hpk] at hpe; rw [← hpe]
    · simp [hpk] at hpe; rw [← hpe] at hek; exact absurd hek hpk
  · simp only [hp, if_false] at he
    rcases List.mem_append.mp he with hl | hr
    · exfalso
      apply hp
      exact List.any_eq_true.mpr ⟨e, hl, by simp [hek]⟩
    · simp at hr; rw [hr]

/-- A write at a different key does not create or move this entry. -/
theorem mem_aset_ne {α : Type} (l : List (String × α)) (k : String) (v : α)
    (e : String × α) (he : e ∈ aset l k v) (hek : e.1 ≠ k) : e ∈ l := by
  unfold aset at he
  by_cases hp : l.any (fun p => p.1 == k)
  · simp only [hp, if_true] at he
    rcases List.mem_map.mp he with ⟨p, hpl, hpe⟩
    by_cases hpk : p.1 = k
    · simp [hpk] at hpe; rw [← hpe] at hek; simp at hek
    · simp [hpk] at hpe; rwa [← hpe]
  · simp only [hp, if_false] at he
    rcases List.mem_append.mp he with hl | hr
    · exact hl
    · simp at hr
      exact absurd (show e.1 = k by rw [hr]) hek

theorem applyW_append (w1 w2 : List (String × String)) (acc : List (String × String)) :
    applyW (w1 ++ w2) acc = applyW w2 (applyW w1 acc) := by
  simp [applyW, List.foldl_append]

/-- Entries of the result of a write sequence, at keys the sequence
writes, carry the last written value. -/
theorem applyW_val (ws : List (String × String)) :
    ∀ (X : List (String × String)) (e : String × String), e ∈ applyW ws X →
      ∀ w, lastW ws e.1 = some w → e.2 = w := by
  induction ws using List.reverseRecOn with
  | nil => intro X e _ w hw; simp [lastW] at hw
  | append_singleton t q ih =>
      intro X e he w hw
      rw [applyW_append] at he
      have haset : applyW [q] (applyW t X) = aset (applyW t X) q.1 q.2 := by
        simp [applyW]
      rw [haset] at he
      rw [lastW_append_single] at hw
      by_cases hqe : q.1 = e.1
      · have := aset_key_val _ q.1 q.2 e he hqe.symm
        simp only [hqe, if_true] at hw
        rw [this]; injection hw
      · simp only [hqe, if_false] at hw
        exact ih X e (mem_aset_ne _ q.1 q.2 e he (fun h => hqe h.symm)) w hw

/-- Full characterization of a write sequence over a state that already
contains every written key: an in-place update by the last writes. -/
theorem applyW_char (ws : List (String × String)) :
    ∀ (X : List (String × String)), (∀ p ∈ ws, p.1 ∈ keysOf X) →
      applyW ws X = X.map (fun e =>
        match lastW ws e.1 with
        | some w => (e.1, w)
        | none => e) := by
  induction ws with
  | nil =>
      intro X _
      simp [applyW, lastW]
  | cons q t ih =>
      intro X hk
      have hw : applyW (q :: t) X = applyW t (aset X q.1 q.2) := by simp [applyW]
      have hq1 : q.1 ∈ keysOf X := hk q (List.mem_cons_self q t)
      have haset := aset_of_mem_keys X q.1 q.2 hq1
      set f1 : String × String → String × String :=
        fun p => if p.1 = q.1 then (q.1, q.2) else p with hf1
      have hf1keys : ∀ p, (f1 p).1 = p.1 := by
        intro p
        by_cases hp : p.1 = q.1
        · simp [hf1, hp]
        · simp [hf1, hp]
      have hkeys : keysOf (X.map f1) = keysOf X := keysOf_map_upd X f1 hf1keys
      have ht : ∀ p ∈ t, p.1 ∈ keysOf (X.map f1) := by
        intro p hp
        rw [hkeys]
        exact hk p (List.mem_cons_of_mem q hp)
      rw [hw, haset, ih (X.map f1) ht, List.map_map]
      apply List.map_congr_left
      intro e _
      by_cases hea : e.1 = q.1
      · have : f1 e = (q.1, q.2) := by simp [hf1, hea]
        simp only [Function.comp_apply, this]
        rw [lastW_cons]
        cases hl : lastW t q.1 with
        | some w => simp [hea, hl]
        | none => simp [hea, hl]
      · have : f1 e = e := by simp [hf1, hea]
        simp only [Function.comp_apply, this]
        rw [lastW_cons]
        cases hl : lastW t e.1 with
        | some w => simp [hl]
        | none =>
            have hqe : ¬ q.1 = e.1 := fun h => hea h.symm
            simp [hl, hqe]

/-- `recordId` is the single write `wrRec` prescribes. -/
theorem recordId_eq_applyW (d : Val → Option String) (x : Val) (p : String)
    (acc : List (String × String)) : recordId d x p acc = applyW (wrRec d x p) acc := by
  unfold recordId wrRec
  cases d x with
  | none => simp [applyW]
  | some dataId =>
      by_cases h : dataId ≠ "" ∧ isUuid dataId
      · simp [h, applyW]
      · simp [h, applyW]

mutual

/-- `getIds` equals running the accumulator-independent write sequence
`wrVal` on the accumulator. -/
theorem getIds_eq_applyW (d : Val → Option String) :
    ∀ (x : Val) (p : String) (acc : List (String × String)),
      getIds d x p acc = applyW (wrVal d x p) acc
  | .vnull, p, acc => by simp [getIds, wrVal, applyW]
  | .vstr _, p, acc => by simp [getIds, wrVal, applyW]
  | .vobj fs, p, acc => by
      rw [getIds, wrVal, applyW_append, ← recordId_eq_applyW]
      exact getIdsFields_eq_applyW d fs p _
  | .varr vs, p, acc => by
      rw [getIds, wrVal, applyW_append, ← recordId_eq_applyW]
      exact getIdsIdx_eq_applyW d vs 0 p _

theorem getIdsFields_eq_applyW (d : Val → Option String) :
    ∀ (l : List (String × Val)) (p : String) (acc : List (String × String)),
      getIdsFields d l p acc = applyW (wrFields d l p) acc
  | [], p, acc => by simp [getIdsFields, wrFields, applyW]
  | (k, v) :: rest, p, acc => by
      rw [getIdsFields, wrFields, applyW_append, ← getIdsEntry_eq_applyW d k v p acc]
      exact getIdsFields_eq_applyW d rest p _

theorem getIdsIdx_eq_applyW (d : Val → Option String) :
    ∀ (l : List Val) (i : Nat) (p : String) (acc : List (String × String)),
      getIdsIdx d l i p acc = applyW (wrIdx d l i p) acc
  | [], i, p, acc => by simp [getIdsIdx, wrIdx, applyW]
  | v :: rest, i, p, acc => by
      rw [getIdsIdx, wrIdx, applyW_append, ← getIdsEntry_eq_applyW d (toString i) v p acc]
      exact getIdsIdx_eq_applyW d rest (i + 1) p _

theorem getIdsEntry_eq_applyW (d : Val → Option String) :
    ∀ (k : String) (v : Val) (p : String) (acc : List (String × String)),
      getIdsEntry d k v p acc = applyW (wrEntry d k v p) acc
  | k, .vnull, p, acc => by simp [getIdsEntry, wrEntry, applyW]
  | k, .vstr _, p, acc => by simp [getIdsEntry, wrEntry, applyW]
  | k, .vobj fs, p, acc => by
      rw [getIdsEntry, wrEntry, applyW_append, ← recordId_eq_applyW]
      exact getIdsFields_eq_applyW d fs (joinPath p k) _
  | k, .varr ws, p, acc => by
      rw [getIdsEntry, wrEntry]
      exact getIdsArr_eq_applyW d ws 0 p k acc

theorem getIdsArr_eq_applyW (d : Val → Option String) :
    ∀ (l : List Val) (i : Nat) (p k : String) (acc : List (String × String)),
      getIdsArr d l i p k acc = applyW (wrArr d l i p k) acc
  | [], i, p, k, acc => by simp [getIdsArr, wrArr, applyW]
  | v :: rest, i, p, k, acc => by
      rw [getIdsArr, wrArr, applyW_append, ← getIds_eq_applyW d v (arrPath p k i) acc]
      exact getIdsArr_eq_applyW d rest (i + 1) p k _

end

/-- Replaying a write sequence on its own result is a no-op. -/
theorem applyW_replay (ws : List (String × String)) (acc : List (String × String)) :
    applyW ws (applyW ws acc) = applyW ws acc := by
  have hkeys : ∀ p ∈ ws, p.1 ∈ keysOf (applyW ws acc) :=
    fun p hp => mem_keys_applyW ws acc p hp
  rw [applyW_char ws (applyW ws acc) hkeys]
  have : ∀ e ∈ applyW ws acc,
      (match lastW ws e.1 with
       | some w => (e.1, w)
       | none => e) = e := by
    intro e he
    cases hl : lastW ws e.1 with
    | some w =>
        have := applyW_val ws acc e he w hl
        simp [← this]
    | none => simp
  rw [List.map_congr_left this]
  simp

/-! ## Fixtures

Concrete data used by counterexamples and witnesses: a parent mutation
creating a `Todo` under temporary id `uuidT1` (server-assigned `uuidS1`)
and a pending child mutation creating a `Comment` under temporary id
`uuidT2` whose variables reference both temporary ids.  `exDataId`
models a `dataIdFromObject` returning `"Typename:id"` keys. -/

def uuidT1 : String := "00000000-0000-0000-0000-000000000001"
def uuidT2 : String := "00000000-0000-0000-0000-000000000002"
def uuidS1 : String := "11111111-1111-1111-1111-111111111111"

def exDataId : Val → Option String
  | .vobj fs =>
      match fs.find? (fun p => p.1 == "__typename"), fs.find? (fun p => p.1 == "id") with
      | some (_, .vstr t), some (_, .vstr i) => some (t ++ ":" ++ i)
      | _, _ => none
  | _ => none

def parentOpt : Val :=
  .vobj [("addTodo", .vobj [("__typename", .vstr "Todo"), ("id", .vstr uuidT1)])]

def parentData : Val :=
  .vobj [("addTodo", .vobj [("__typename", .vstr "Todo"), ("id", .vstr uuidS1)])]

def childOpt : Val :=
  .vobj [("addComment", .vobj [("__typename", .vstr "Comment"), ("id", .vstr uuidT2)])]

def childVars : Val := .vobj [("todoId", .vstr uuidT1), ("commentId", .vstr uuidT2)]

def initMeta : MetaState := { snapshot := { enqueuedMutations := 0, cache := .vnull }, idsMap := [] }

/-- The identifier map after enqueueing the parent and the child and
committing the parent (`SAVE_SERVER_ID` with the server response). -/
def exIdsMap : IdMap :=
  (runActions exDataId initMeta
    [.enqueue parentOpt, .enqueue childOpt, .saveServerId parentOpt parentData]).idsMap

/-- The error shape of a transient/network failure: no GraphQL errors
anywhere and no `permanent` flag. -/
def transientError : AppError := { graphQLErrors := [], networkErrorGraphQLErrors := [], permanent := false }

/-- An error carrying the backend conflict signal. -/
def conflictError : AppError :=
  { graphQLErrors := [{ errorType := some "DynamoDB:ConditionalCheckFailedException",
                        data := .vobj [("version", .vstr "2")] }]
    networkErrorGraphQLErrors := []
    permanent := false }

/-- A backend business-logic error (the `DynamoDB:AmazonDynamoDBException`
fixture of the repository's tests). -/
def businessError : AppError :=
  { graphQLErrors := [{ errorType := some "DynamoDB:AmazonDynamoDBException", data := .vnull }]
    networkErrorGraphQLErrors := []
    permanent := false }

def exAction : OfflineAction :=
  { effect := { mutation := { name := "addTodo", operationType := "mutation" }
                vars := .vobj [("name", .vstr "MyTodo1")] } }

/-- Modelled from the spec: the external retry driver (redux-offline,
a collaborator per §4.3/§6) calls the discard decision after each failed
attempt with "the number of retries already attempted" (§3), i.e. `k - 1`
on attempt `k`, and stops retrying at the first `true`.  The total number
of attempts of an always-failing mutation is therefore one more than the
first retries value the decision discards at. -/
def attemptsUntilDiscard (decision : Nat → Bool) (bound : Nat) : Option Nat :=
  ((List.range bound).find? decision).map (· + 1)

/-! ## The claims -/

/-- C1, counterexample.  After the parent commits (`SAVE_SERVER_ID`
recorded via `mapIds`), the identifier map still holds the pending
child's own temporary id `uuidT2` with a `null` value (written at
enqueue), and `replaceUsingMap` applied to the pending child's variables
leaves `uuidT2` in place — the result does contain an identifier present
as a key of the Identifier Map, refuting the claim as stated. -/
theorem claim1_counterexample :
    uuidT2 ∈ (exIdsMap.map Prod.fst) ∧
    uuidT2 ∈ stringsIn (replaceUsingMap exIdsMap childVars) := by decide

/-- C1, amended.  After a commit records server identifiers,
`replaceUsingMap` eliminates every identifier that has a truthy
(non-null, non-empty) entry in the Identifier Map from the pending
effects' variables — provided no recorded server identifier is itself
such a key and the empty string has no truthy entry.  Identifiers whose
entries are still `null` are not replaced (see C10). -/
theorem claim1_roundtrip_amended (m : IdMap)
    (hv : ∀ p ∈ m, p.2 = none ∨ lookupTruthy m (p.2.getD "") = none)
    (hne : lookupTruthy m "" = none)
    (x : Val) (s : String) (hs : s ∈ stringsIn (replaceUsingMap m x)) :
    lookupTruthy m s = none := by
  have hv' : ∀ k v, lookupTruthy m k = some v → lookupTruthy m v = none := by
    intro k v h
    have hmem := lookupTruthy_mem m k v h
    rcases hv _ hmem with h1 | h1
    · simp at h1
    · simpa using h1
  exact replace_top_clean m hv' hne x s hs

/-- C1, witness: the amended theorem applied to the one-entry map
`t1 ↦ s1` and variables `{ id: "t1" }`. -/
theorem claim1_roundtrip_amended_witness :
    lookupTruthy [("t1", some "s1")] "s1" = none :=
  claim1_roundtrip_amended [("t1", some "s1")] (by decide) (by decide)
    (.vobj [("id", .vstr "t1")]) "s1" (by decide)

/-- C9.  Idempotence of identifier extraction: re-running `getIds` over
the same tree on top of its own output changes nothing — every property
write of the second pass rewrites a binding to the value it already
has. -/
theorem claim9_getIds_idempotent (d : Val → Option String) (x : Val) (p : String)
    (acc : List (String × String)) :
    getIds d x p (getIds d x p acc) = getIds d x p acc := by
  rw [getIds_eq_applyW d x p acc]
  rw [getIds_eq_applyW d x p (applyW (wrVal d x p) acc)]
  exact applyW_replay _ _

/-- C10.  `replaceUsingMap` substitutes only truthy map entries: a
temporary identifier bound to the `null` "not yet known" marker is left
unchanged, both as a whole value and at every occurrence inside a
structure (occurrence counts never drop), so a pending effect replayed
before its parent commits still sends the temporary identifier. -/
theorem claim10_null_entries_preserved (m : IdMap) (s : String)
    (h : jget m s = some none) :
    replaceUsingMap m (.vstr s) = .vstr s ∧
    ∀ x : Val, List.count s (stringsIn x) ≤ List.count s (stringsIn (replaceUsingMap m x)) := by
  have hs := lookupTruthy_of_jget_null m s h
  constructor
  · by_cases hse : s = ""
    · simp [replaceUsingMap, hse]
    · simp [replaceUsingMap, hse, substField_self m s hs]
  · exact replace_top_keeps m s hs

/-- C10, witness: the map `{ t1: null }` leaves the identifier `t1`
untouched. -/
theorem claim10_null_entries_preserved_witness :
    replaceUsingMap [("t1", none)] (.vstr "t1") = .vstr "t1" :=
  (claim10_null_entries_preserved [("t1", none)] "t1" (by decide)).1

/-- C5.  `replaceUsingMap` has no depth cap and no visited-reference
set; on the cyclic object `x.self = x` (expressible only in the
reference-heap reading of JS objects) the recursion never returns: no
amount of call-stack fuel suffices, for any identifier map. -/
theorem claim5_cycle_divergence (fuel : Nat) (m : IdMap) :
    replaceFuel m cyclicHeap fuel (.href 0) = none := by
  induction fuel with
  | zero => simp [replaceFuel]
  | succ f ih =>
      simp only [cyclicHeap] at ih
      simp [replaceFuel, goFields, cyclicHeap, ih]

/-- C2, counterexample.  A mutation whose every attempt fails with a
transient error is NOT discarded after 11 attempts: when the 11th
attempt has failed (10 retries already attempted) the decision is still
retry-as-is; the first discarding retries value is 11, i.e. the 12th
attempt. -/
theorem claim2_counterexample :
    (underscoreDiscard defaultResolver transientError exAction 10).fst = false ∧
    (underscoreDiscard defaultResolver transientError exAction 11).fst = true := by decide

/-- C2, amended.  For every error with no GraphQL errors at all (none
top-level and none tagged `AWSAppSyncClient:` under `networkError`), the
discard decision is `error.permanent || retries > 10`; consequently an
always-transiently-failing mutation is discarded after exactly 12
attempts (11 retries), under the spec's driver convention that the
decision receives the number of retries already attempted. -/
theorem claim2_retry_ceiling_amended :
    (∀ (e : AppError) (a : OfflineAction) (r : Nat),
        e.graphQLErrors = [] →
        e.networkErrorGraphQLErrors.find? isAppSyncClientError = none →
        (underscoreDiscard defaultResolver e a r).fst = (e.permanent || decide (r > 10))) ∧
    attemptsUntilDiscard
      (fun k => (underscoreDiscard defaultResolver transientError exAction k).fst) 20 =
      some 12 := by
  constructor
  · intro e a r h1 h2
    simp [underscoreDiscard, h1, h2]
  · decide

/-- C2, witness: the amended decision formula applied to a concrete
transient error at zero retries. -/
theorem claim2_retry_ceiling_amended_witness :
    (underscoreDiscard defaultResolver transientError exAction 0).fst =
      (transientError.permanent || decide ((0 : Nat) > 10)) :=
  claim2_retry_ceiling_amended.1 transientError exAction 0 rfl rfl

/-- C3.  When the error carries the backend conflict signal
(`DynamoDB:ConditionalCheckFailedException`): a resolver returning the
literal discard sentinel yields DISCARD (`true`); a resolver returning a
truthy replacement-variables object yields retry (`false`) with the
effect's variables replaced by that object; with no resolver supplied,
the installed default `() => 'DISCARD'` makes the decision DISCARD. -/
theorem claim3_conflict_decision (e : AppError) (a : OfflineAction) (r : Nat) (cc : GqlErr)
    (hcc : e.graphQLErrors.find? isConditionalCheck = some cc) :
    (∀ fn, fn (conflictInfo a cc r) = .rret .rdiscard →
        underscoreDiscard fn e a r = (true, a)) ∧
    (∀ fn v, fn (conflictInfo a cc r) = .rret (.robj v) →
        underscoreDiscard fn e a r = (false, setVars a v) ∧ (setVars a v).effect.vars = v) ∧
    discardDecision none e a r = (true, a) := by
  refine ⟨?_, ?_, ?_⟩
  · intro fn hfn
    simp [underscoreDiscard, hcc, hfn]
  · intro fn v hfn
    exact ⟨by simp [underscoreDiscard, hcc, hfn], rfl⟩
  · simp [discardDecision, underscoreDiscard, hcc, defaultResolver]

/-- C3, witness: a concrete conflict error with the default policy (no
resolver supplied) and with a replacing resolver. -/
theorem claim3_conflict_decision_witness :
    discardDecision none conflictError exAction 0 = (true, exAction) ∧
    underscoreDiscard (fun _ => .rret (.robj (.vstr "newVars"))) conflictError exAction 0 =
      (false, setVars exAction (.vstr "newVars")) :=
  ⟨(claim3_conflict_decision conflictError exAction 0 _ rfl).2.2,
   ((claim3_conflict_decision conflictError exAction 0 _ rfl).2.1
      (fun _ => .rret (.robj (.vstr "newVars"))) (.vstr "newVars") rfl).1⟩

/-- C7.  A resolver that throws on a conflict is caught and the decision
is DISCARD; the decision function is total on well-formed offline
actions (it is a Lean function into `Bool × OfflineAction`), so it never
propagates the exception. -/
theorem claim7_resolver_throw_discard (e : AppError) (a : OfflineAction) (r : Nat)
    (fn : ConflictInfo → ResolverOutcome) (cc : GqlErr)
    (hcc : e.graphQLErrors.find? isConditionalCheck = some cc)
    (hthrow : fn (conflictInfo a cc r) = .rthrow) :
    underscoreDiscard fn e a r = (true, a) := by
  simp [underscoreDiscard, hcc, hthrow]

/-- C7, witness: a throwing resolver on a concrete conflict error. -/
theorem claim7_resolver_throw_discard_witness :
    underscoreDiscard (fun _ => .rthrow) conflictError exAction 3 = (true, exAction) :=
  claim7_resolver_throw_discard conflictError exAction 3 (fun _ => .rthrow) _ rfl rfl

/-- C8.  An error whose GraphQL-error list is non-empty but carries no
conflict signal is discarded regardless of the retry count and of the
resolver. -/
theorem claim8_business_error_discard (e : AppError) (a : OfflineAction) (r : Nat)
    (fn : ConflictInfo → ResolverOutcome)
    (hne : e.graphQLErrors ≠ [])
    (hnc : e.graphQLErrors.find? isConditionalCheck = none) :
    underscoreDiscard fn e a r = (true, a) := by
  simp [underscoreDiscard, hnc, hne]

/-- C8, witness: the repository tests' `DynamoDB:AmazonDynamoDBException`
fixture at zero retries. -/
theorem claim8_business_error_discard_witness :
    underscoreDiscard defaultResolver businessError exAction 0 = (true, exAction) :=
  claim8_business_error_discard businessError exAction 0 defaultResolver
    (List.cons_ne_nil _ _) rfl

/-- C4.  A mutation issued while offline on its first issuance (replay
flag unset) is queued without any network attempt (`forward` is never
invoked on the `queued` outcome), and the value emitted to the caller is
the caller-supplied optimistic response when truthy, or a null for every
top-level selection key when none was supplied. -/
theorem claim4_offline_mutation_immediate (op : Operation)
    (hm : op.opType = "mutation") (hd : op.ctx.doIt = false) :
    requestOutcome false op = .queued (some (enqueueMutationResult op)) ∧
    (∀ v, op.ctx.optimisticResponse = some (.value v) → vtruthy v = true →
        enqueueMutationResult op = v) ∧
    (op.ctx.optimisticResponse = none →
        enqueueMutationResult op = .vobj (op.selections.map (fun k => (k, Val.vnull)))) := by
  refine ⟨?_, ?_, ?_⟩
  · simp [requestOutcome, hm, hd]
  · intro v hv ht
    simp [enqueueMutationResult, evalOptimistic, hv, ht]
  · intro hn
    simp [enqueueMutationResult, evalOptimistic, hn, vtruthy]

/-- C4, witness: an offline mutation with no optimistic response over a
single-field selection set. -/
theorem claim4_offline_mutation_immediate_witness :
    requestOutcome false
        { opType := "mutation", selections := ["addTodo"], vars := .vnull,
          ctx := { doIt := false, optimisticResponse := none } } =
      .queued (some (enqueueMutationResult
        { opType := "mutation", selections := ["addTodo"], vars := .vnull,
          ctx := { doIt := false, optimisticResponse := none } })) ∧
    enqueueMutationResult
        { opType := "mutation", selections := ["addTodo"], vars := .vnull,
          ctx := { doIt := false, optimisticResponse := none } } =
      .vobj [("addTodo", Val.vnull)] :=
  ⟨(claim4_offline_mutation_immediate _ rfl rfl).1,
   (claim4_offline_mutation_immediate _ rfl rfl).2.2 rfl⟩

/-- C6, counterexample.  Draining the queue by ROLLBACK does not reset
the Identifier Map: after `[ENQUEUE parent, ROLLBACK]` the pending count
is back to zero but the map still holds the parent's temporary id. -/
theorem claim6_counterexample :
    (runActions exDataId initMeta [.enqueue parentOpt, .rollback]).snapshot.enqueuedMutations
        = 0 ∧
    (runActions exDataId initMeta [.enqueue parentOpt, .rollback]).idsMap = [(uuidT1, none)] ∧
    [(uuidT1, (none : Option String))] ≠ [] := by decide

/-- C6, amended.  The Identifier Map is reset exactly when the pending
count reaches zero via COMMIT; a ROLLBACK never changes the map (the
`idsMapReducer` has no rollback branch), even when it drains the queue
to empty. -/
theorem claim6_drain_reset_amended (d : Val → Option String) (s : MetaState) :
    ((metadataReducer d s .commit).snapshot.enqueuedMutations = 0 →
      (metadataReducer d s .commit).idsMap = []) ∧
    (metadataReducer d s .rollback).idsMap = s.idsMap := by
  constructor
  · intro h
    simp [metadataReducer, snapshotReducer, enqueuedMutationsReducer] at h
    simp [metadataReducer, idsMapReducer, snapshotReducer, enqueuedMutationsReducer, h]
  · rfl

/-- C6, witness: committing the last pending mutation clears the map;
rolling back leaves it untouched. -/
theorem claim6_drain_reset_amended_witness :
    (metadataReducer exDataId ⟨⟨1, .vnull⟩, [("t", none)]⟩ .commit).idsMap = [] ∧
    (metadataReducer exDataId ⟨⟨1, .vnull⟩, [("t", none)]⟩ .rollback).idsMap = [("t", none)] :=
  ⟨(claim6_drain_reset_amended exDataId ⟨⟨1, .vnull⟩, [("t", none)]⟩).1 (by decide),
   (claim6_drain_reset_amended exDataId ⟨⟨1, .vnull⟩, [("t", none)]⟩).2⟩

end AppSync
